import Mathlib

/-!
# cerebrium-fuse: a two-tier (nfs origin / ssd cache) read-only FUSE filesystem

A shallow embedding of `main.go` and the properties of its node logic.

* Go strings are Lean `String`s, byte slices are `List UInt8`.
* The operating system's filesystem is an explicit value `FileSys`; the calls
  `os.Stat`, `os.ReadFile`, `os.ReadDir` and `os.WriteFile` read or update it.  Paths
  that clean to the same path name the same file; links are not modelled.
* The package globals `count` and `subDirs` form the `State` that every
  operation takes and returns.
* `uint64` arithmetic is `Nat` arithmetic modulo `2 ^ 64`.
* Logging (`slog`, `fmt.Println`) has no effect on any result and is left out.
-/

set_option autoImplicit false

namespace CerebriumFuse

/-! ## Paths: `path/filepath` and the `os` base name (Unix) -/

/-- The elements of a path between its separators: `a//b` gives `a`, the empty element, `b`. -/
def splitSlash : List Char → List (List Char)
  | [] => [[]]
  | c :: cs =>
    if c = '/' then [] :: splitSlash cs
    else
      match splitSlash cs with
      | [] => [[c]]
      | e :: es => (c :: e) :: es

/-- One round of the loop of `filepath.Clean` on the path element `e`; `out` holds the
elements written so far, the last one first.  An empty element and `.` are dropped, `..`
removes the last real element, stays in place in front of a relative path and is dropped
at the root, any other element is written. -/
def cleanStep (rooted : Bool) (out : List (List Char)) (e : List Char) : List (List Char) :=
  if e = [] then out
  else if e = ['.'] then out
  else if e = ['.', '.'] then
    match out with
    | [] => if rooted then [] else [e]
    | top :: rest => if top = ['.', '.'] then e :: top :: rest else rest
  else e :: out

/-- The written elements (last one first) joined by single separators. -/
def joinRev : List (List Char) → List Char
  | [] => []
  | [e] => e
  | e :: e' :: es => joinRev (e' :: es) ++ '/' :: e

/-- The function `filepath.Clean` on the characters of a path. -/
def cleanChars (path : List Char) : List Char :=
  if path = [] then ['.']
  else
    let rooted : Bool := path.head? = some '/'
    let body := joinRev ((splitSlash path).foldl (cleanStep rooted) [])
    if rooted then '/' :: body
    else if body = [] then ['.'] else body

/-- The function `filepath.Clean`. -/
def Clean (path : String) : String := ⟨cleanChars path.data⟩

/-- The function `filepath.Join` of two elements: empty leading elements are ignored and
the rest is joined by a separator and cleaned. -/
def Join (a b : String) : String :=
  if a ≠ "" then Clean (a ++ "/" ++ b)
  else if b ≠ "" then Clean b
  else ""

/-- Removal of trailing separators, on the reversed name; the first character of the name
is never removed. -/
def trimSlashes : List Char → List Char
  | c :: c' :: cs => if c = '/' then trimSlashes (c' :: cs) else c :: c' :: cs
  | l => l

/-- The function `basename` of package `os` on the characters of a name. -/
def basenameChars (name : List Char) : List Char :=
  match trimSlashes name.reverse with
  | [] => []
  | c :: cs => (c :: cs.takeWhile (fun x => x ≠ '/')).reverse

/-- The function `basename` of package `os`: what `FileInfo.Name()` reports after `os.Stat`. -/
def basename (name : String) : String := ⟨basenameChars name.data⟩

/-- The function `filepath.Dir` on the characters of a path: everything up to the last
separator, cleaned. -/
def dirChars (path : List Char) : List Char :=
  cleanChars (path.reverse.dropWhile (fun x => x ≠ '/')).reverse

/-- The function `filepath.Dir`. -/
def filepath_Dir (path : String) : String := ⟨dirChars path.data⟩

/-- A name a directory entry can have: not empty, without separator, neither `.` nor `..`
(`os.ReadDir` never yields the latter two). -/
def validName (n : String) : Prop :=
  n.data ≠ [] ∧ '/' ∉ n.data ∧ n.data ≠ ['.'] ∧ n.data ≠ ['.', '.']

instance (n : String) : Decidable (validName n) := by
  unfold validName; exact inferInstance

/-- A list of characters that is empty or ends in a separator. -/
def endsDir (q : List Char) : Prop := q = [] ∨ ∃ r, q = r ++ ['/']

/-! ## Errors -/

/-- Error numbers the operating system can report. -/
inductive Errno where
  | ENOENT
  | EACCES
  | EISDIR
  | ENOTDIR
  | EPERM
  | ENOSPC
  /-- any other error number, such as 5 for an input/output error -/
  | other (code : Nat)
  deriving DecidableEq, Repr

/-- Go error values that occur in the program. -/
inductive GoErr where
  /-- a value of type `*fs.PathError`, as the `os` package returns -/
  | PathError (op path : String) (errno : Errno)
  /-- a bare `syscall.Errno`, such as `syscall.ENOENT` -/
  | Errno (errno : Errno)
  /-- the package variable `ErrIsDir = errors.New("dir cannot be read")` -/
  | ErrIsDir
  /-- the result of `fmt.Errorf` without an error operand -/
  | Errorf (format : String) (args : List String)
  /-- the result of `fmt.Errorf` with its error operand under `%v`: part of the text, not wrapped -/
  | ErrorfV (format : String) (args : List String) (err : GoErr)
  /-- the result of `fmt.Errorf` with its error operand under `%w`: wrapped -/
  | ErrorfW (format : String) (args : List String) (err : GoErr)
  deriving DecidableEq, Repr

deriving instance DecidableEq for Except

/-- The function `os.IsNotExist`: it looks through `*PathError` only, not through `fmt` wrappers. -/
def os_IsNotExist : GoErr → Bool
  | .PathError _ _ e => decide (e = .ENOENT)
  | .Errno e => decide (e = .ENOENT)
  | _ => false

/-- The call `errors.Is(err, ErrIsDir)`: follows the `Unwrap` chain. -/
def errors_Is_ErrIsDir : GoErr → Bool
  | .ErrIsDir => true
  | .ErrorfW _ _ e => errors_Is_ErrIsDir e
  | _ => false

/-! ## The operating system's filesystem -/

abbrev Bytes := List UInt8

/-- What `FileInfo.Mode()` tells the program: regular file, directory, or anything else. -/
inductive FileMode where
  | regular
  | dir
  | other
  deriving DecidableEq, Repr

/-- The value `os.FileInfo`. -/
structure FileInfo where
  name : String
  mode : FileMode
  deriving DecidableEq, Repr

def FileInfo.IsDir (i : FileInfo) : Bool := decide (i.mode = .dir)

def FileInfo.IsRegular (i : FileInfo) : Bool := decide (i.mode = .regular)

/-- How `os.ReadFile` can fail: in opening the file, or in reading the opened file. -/
inductive ReadFault where
  | atOpen (e : Errno)
  | atRead (e : Errno)
  deriving DecidableEq, Repr

/-- How `os.WriteFile` can fail: in opening the file, when nothing has been touched yet,
or after the file was created or truncated, with only the first `written` bytes in it
(an error of the final close is the case of all bytes written). -/
inductive WriteFault where
  | atOpen (e : Errno)
  | atWrite (e : Errno) (written : Nat)
  deriving DecidableEq, Repr

/-- The state of the filesystem as the program can observe it, one answer per path:
the outcome of `stat`, of reading the whole file, of listing the directory (entry names in
enumeration order), and the way, if any, in which a write of the file would fail. -/
structure FileSys where
  stat : String → Except Errno FileMode
  readFile : String → Except ReadFault Bytes
  readDir : String → Except Errno (List String)
  writeFault : String → Option WriteFault

/-- The call `os.Stat(name)`. -/
def os_Stat (fs : FileSys) (name : String) : Except GoErr FileInfo :=
  match fs.stat name with
  | .ok m => .ok { name := basename name, mode := m }
  | .error e => .error (.PathError "stat" name e)

/-- The call `os.ReadFile(name)`. -/
def os_ReadFile (fs : FileSys) (name : String) : Except GoErr Bytes :=
  match fs.readFile name with
  | .ok data => .ok data
  | .error (.atOpen e) => .error (.PathError "open" name e)
  | .error (.atRead e) => .error (.PathError "read" name e)

/-- The call `os.ReadDir(name)`; of each `DirEntry` only `Name()` is used. -/
def os_ReadDir (fs : FileSys) (name : String) : Except GoErr (List String) :=
  match fs.readDir name with
  | .ok names => .ok names
  | .error e => .error (.PathError "open" name e)

/-- A listing with the name `n` put in at its place in the order by file name, in which
`os.ReadDir` returns entries. -/
def insertName (n : String) : List String → List String
  | [] => [n]
  | m :: ms => if n < m then n :: m :: ms else m :: insertName n ms

/-- A listing that holds the name `n`: as it is when it holds `n` already. -/
def addName (n : String) (names : List String) : List String :=
  if n ∈ names then names else insertName n names

/-- The filesystem after `name` has been created or truncated and holds `landed`: every
path that names the same file is a regular file with that content, and every listing of
the directory that holds the file has its name; nothing else changes. -/
def FileSys.withFile (fs : FileSys) (name : String) (landed : Bytes) : FileSys :=
  { fs with
    stat := fun q => if Clean q = Clean name then .ok .regular else fs.stat q
    readFile := fun q => if Clean q = Clean name then .ok landed else fs.readFile q
    readDir := fun q =>
      if Clean q = filepath_Dir name then
        match fs.readDir q with
        | .ok names => .ok (addName (basename name) names)
        | .error e => .error e
      else fs.readDir q }

/-- The call `os.WriteFile(name, data, 0664)`: the returned error and the filesystem
afterwards.  The file is opened for writing, created if absent and truncated otherwise,
then written, then closed.  When the open fails (a fault of the filesystem, or `name` a
directory) nothing is touched.  When the write fails the file is left with the bytes that
got through.  Writing to something that is neither a regular file nor a directory leaves
the namespace as it is. -/
def os_WriteFile (fs : FileSys) (name : String) (data : Bytes) : Option GoErr × FileSys :=
  match fs.writeFault name with
  | some (.atOpen e) => (some (.PathError "open" name e), fs)
  | fault =>
    match fs.stat name with
    | .ok .dir => (some (.PathError "open" name .EISDIR), fs)
    | .ok .other =>
      match fault with
      | some (.atWrite e _) => (some (.PathError "write" name e), fs)
      | _ => (none, fs)
    | _ =>
      match fault with
      | some (.atWrite e written) =>
        (some (.PathError "write" name e), fs.withFile name (data.take written))
      | _ => (none, fs.withFile name data)

/-! ## CONSTS -/

def pwd : String := "/workspaces/cerebrium-fuse/"

def cacheDir : String := pwd ++ "ssd/"

/-! ## STRUCTS -/

/-- The counter `nextInod`; its mutex serialises the calls and is not modelled. -/
structure nextInod where
  inode : Nat
  deriving DecidableEq, Repr

/-- The method `next`: `n.inode++; ret = n.inode` on a `uint64`.  Returns `ret` and the
counter after the call. -/
def nextInod.next (n : nextInod) : Nat × nextInod :=
  let inode := (n.inode + 1) % 2 ^ 64
  (inode, { inode := inode })

structure Dir where
  name : String
  path : String
  inode : Nat
  deriving DecidableEq, Repr

structure File where
  path : String
  cachedPath : String
  inode : Nat
  size : Nat
  deriving DecidableEq, Repr

/-- The package globals: `count` and the map `subDirs` (a missing key reads as the empty
slice). -/
structure State where
  count : nextInod
  subDirs : String → List Dir

/-- The globals at process start, after `main` has made the map. -/
def State.init : State := { count := { inode := 0 }, subDirs := fun _ => [] }

/-- The type `FS`. -/
structure FS where
  deriving DecidableEq, Repr

/-- The method `FS.Root`. -/
def FS.Root (_ : FS) (s : State) : Dir × State :=
  let (inode, count) := s.count.next
  ({ name := "", path := pwd ++ "nfs/", inode := inode }, { s with count := count })

/-- The part of `fuse.Attr` the program fills in. -/
structure Attr where
  Inode : Nat
  Mode : Nat
  isDir : Bool
  Size : Nat
  deriving DecidableEq, Repr

/-- The method `Dir.Attr`: mode `os.ModeDir | 0o555`. -/
def Dir.Attr (d : Dir) (a : Attr) : Attr :=
  { a with Inode := d.inode, Mode := 0o555, isDir := true }

/-- The method `File.Attr`: mode `0444`. -/
def File.Attr (f : File) (a : Attr) : Attr :=
  { a with Inode := f.inode, Mode := 0o444, isDir := false, Size := f.size }

inductive DirentType where
  | DT_File
  | DT_Dir
  deriving DecidableEq, Repr

/-- The value `fuse.Dirent`. -/
structure Dirent where
  Inode : Nat
  Name : String
  Type_ : DirentType
  deriving DecidableEq, Repr

/-- The outcome of `File.ReadAll`: the returned pair `([]byte, error)` and whether the
call went on to the slow branch, that is `time.Sleep(500ms)` and the read of `f.path`. -/
structure ReadAllResult where
  data : Except GoErr Bytes
  slept : Bool
  deriving DecidableEq

/-- The method `File.ReadAll`: the cached location first, otherwise the slower disk. -/
def File.ReadAll (fs : FileSys) (f : File) : ReadAllResult :=
  if f.cachedPath.length > 0 then
    match os_ReadFile fs f.cachedPath with
    | .ok data => { data := .ok data, slept := false }
    | .error _ => { data := os_ReadFile fs f.path, slept := true }
  else
    { data := os_ReadFile fs f.path, slept := true }

/-! ## FUNCTIONS -/

/-- The goroutine `go func() ...` that `findFile` starts after a read from the slow disk,
with the values of `cachedPath` and `content` it closes over.  It also closes over `file`,
the very pointer that `findFile` returns; `run` takes the value behind it as an argument. -/
structure Population where
  cachedPath : String
  content : Bytes
  deriving DecidableEq, Repr

/-- The body of the goroutine, run on the current filesystem and on the current value of
the `File` that `findFile` returned (the goroutine and the caller share it through the
pointer): write the content to the cache; on an error return, leaving the file as it is,
else store the cached path in the file. -/
def Population.run (g : Population) (fs : FileSys) (file : File) : FileSys × File :=
  match os_WriteFile fs g.cachedPath g.content with
  | (some _, fs') => (fs', file)
  | (none, fs') => (fs', { file with cachedPath := g.cachedPath })

/-- What a call that may start the goroutine leaves behind: its return value, the
goroutine it started (if any), and the globals. -/
structure Ret (α : Type) where
  val : α
  spawned : Option Population
  state : State

/-- The function `findFile`.  It returns a pointer to the `File` it builds; the `File` of
the result is the value behind that pointer at the time of the return.  The goroutine it
starts holds the same pointer: `Population.run` gives the value behind it afterwards. -/
def findFile (fs : FileSys) (s : State) (path name : String) : Ret (Except GoErr File) :=
  -- init our file object
  let (inode, count) := s.count.next
  let s : State := { s with count := count }
  let file : File := { path := Join path name, cachedPath := "", inode := inode, size := 0 }
  let cachedPath := Join cacheDir name
  -- let's see if it's already cached, else try the slow disk location
  let found : Except GoErr (FileInfo × File) :=
    match os_Stat fs cachedPath with
    | .ok info => .ok (info, { file with cachedPath := cachedPath })
    | .error _ =>
      match os_Stat fs file.path with
      | .ok info => .ok (info, file)
      | .error err => .error err
  match found with
  | .error err => { val := .error err, spawned := none, state := s }
  | .ok (info, file) =>
    if info.IsRegular == false then
      { val := .error .ErrIsDir, spawned := none, state := s }
    else
      match (file.ReadAll fs).data with
      | .error err =>
        { val := .error (.ErrorfV "error reading contents of file: %s : %s : %v" [path, name] err),
          spawned := none, state := s }
      | .ok content =>
        let file : File := { file with size := content.length }
        if file.cachedPath = "" then
          { val := .ok file, spawned := some { cachedPath := cachedPath, content := content },
            state := s }
        else
          { val := .ok file, spawned := none, state := s }

/-- The function `readDir`; on an error the returned `Dir` is the zero value. -/
def readDir (fs : FileSys) (s : State) (path name : String) : (Dir × Option GoErr) × State :=
  let fullPath := Join path name
  let zero : Dir := { name := "", path := "", inode := 0 }
  match os_Stat fs fullPath with
  | .error err => ((zero, some (.ErrorfV "error stating dir: %s : %v" [fullPath] err)), s)
  | .ok info =>
    if info.IsDir then
      let (inode, count) := s.count.next
      (({ inode := inode, name := name, path := fullPath }, none), { s with count := count })
    else
      ((zero, some (.Errorf "was expecting a dir and didn't get one: %s" [fullPath])), s)

/-- A value of the interface `fs.Node`: a `Dir` or (a pointer to) a `File`. -/
inductive Node where
  | dir (d : Dir)
  | file (f : File)
  deriving DecidableEq, Repr

/-- The method `Dir.Lookup`; the value is the returned pair `(fs.Node, error)`, each of
the two possibly nil. -/
def Dir.Lookup (fs : FileSys) (s : State) (d : Dir) (name : String) :
    Ret (Option Node × Option GoErr) :=
  -- see if we're looking for a known sub-directory
  match (s.subDirs d.path).find? (fun dir => dir.name == name) with
  | some dir => { val := (some (.dir dir), none), spawned := none, state := s }
  | none =>
    -- not a known directory: try to find this file, cached or not
    let r := findFile fs s d.path name
    match r.val with
    | .ok file => { val := (some (.file file), none), spawned := r.spawned, state := r.state }
    | .error err =>
      if errors_Is_ErrIsDir err then
        let ((dir, e), s') := readDir fs r.state d.path name
        { val := (some (.dir dir), e), spawned := r.spawned, state := s' }
      else if os_IsNotExist err then
        { val := (none, some (.Errno .ENOENT)), spawned := r.spawned, state := r.state }
      else
        { val := (none, some (.Errno .ENOENT)), spawned := r.spawned, state := r.state }

/-- The loop of `Dir.ReadDirAll` over the listed names, with the dirents collected so far. -/
def Dir.ReadDirAll.loop (fs : FileSys) (d : Dir) :
    List String → State → List Dirent → List Dirent × State
  | [], s, dirDirs => (dirDirs, s)
  | file :: files, s, dirDirs =>
    let fullPath := Join d.path file
    match os_Stat fs fullPath with
    | .error _ => Dir.ReadDirAll.loop fs d files s dirDirs
    | .ok info =>
      let (inode, count) := s.count.next
      if info.IsDir then
        let (inode', count') := count.next
        let s' : State :=
          { count := count'
            subDirs := Function.update s.subDirs d.path
              (s.subDirs d.path ++ [{ name := file, path := fullPath, inode := inode' }]) }
        Dir.ReadDirAll.loop fs d files s'
          (dirDirs ++ [{ Inode := inode, Name := info.name, Type_ := .DT_Dir }])
      else
        Dir.ReadDirAll.loop fs d files { s with count := count }
          (dirDirs ++ [{ Inode := inode, Name := info.name, Type_ := .DT_File }])

/-- The method `Dir.ReadDirAll`. -/
def Dir.ReadDirAll (fs : FileSys) (s : State) (d : Dir) : Except GoErr (List Dirent) × State :=
  match os_ReadDir fs d.path with
  | .error err => (.error (.ErrorfW "failed to read path dir: %s : %w" [d.path] err), s)
  | .ok files =>
    let s : State := { s with subDirs := Function.update s.subDirs d.path [] }
    let (dirDirs, s) := Dir.ReadDirAll.loop fs d files s []
    (.ok dirDirs, s)

/-! ## Runs of the program -/

/-- The values that `k` successive calls of `next` return, in order, and the counter
after them. -/
def nextInod.calls : Nat → nextInod → List Nat × nextInod
  | 0, n => ([], n)
  | k + 1, n =>
    let (ret, n') := n.next
    let (rets, n'') := nextInod.calls k n'
    (ret :: rets, n'')

/-- The filesystem once the goroutine that a call of `findFile` started, if it started
one, has run. -/
def afterPopulation (fs : FileSys) (r : Ret (Except GoErr File)) : FileSys :=
  match r.spawned, r.val with
  | some g, .ok file => (g.run fs file).1
  | _, _ => fs

/-- What `ReadAll` yields on the node that a call of `findFile` returned. -/
def contentOf (fs : FileSys) (r : Except GoErr File) : Except GoErr Bytes :=
  match r with
  | .ok file => (file.ReadAll fs).data
  | .error err => .error err

/-- Resolve `(p1, n)` and let its population run, then resolve `(p2, n)` and let its
population run: the filesystem and the globals afterwards. -/
def resolveInTurn (fs : FileSys) (s : State) (p1 p2 n : String) : FileSys × State :=
  let r1 := findFile fs s p1 n
  let fs1 := afterPopulation fs r1
  let r2 := findFile fs1 r1.state p2 n
  (afterPopulation fs1 r2, r2.state)

/-- Every `Dir` the index records under a path lies directly below that path. -/
def IndexWF (subDirs : String → List Dir) : Prop :=
  ∀ k, ∀ dir ∈ subDirs k, dir.path = Join k dir.name

/-- The type `ReadDirAll` gives an entry whose stat reported mode `m`. -/
def direntTypeOf (m : FileMode) : DirentType :=
  if m = .dir then .DT_Dir else .DT_File

/-- The states of the globals that the process can reach: from the start, by any of its
operations, on any filesystem and any arguments. -/
inductive Reachable : State → Prop where
  | init : Reachable State.init
  | afterRoot (r : FS) (s : State) : Reachable s → Reachable (r.Root s).2
  | afterLookup (fs : FileSys) (s : State) (d : Dir) (name : String) :
      Reachable s → Reachable (Dir.Lookup fs s d name).state
  | afterReadDirAll (fs : FileSys) (s : State) (d : Dir) :
      Reachable s → Reachable (Dir.ReadDirAll fs s d).2
  | afterFindFile (fs : FileSys) (s : State) (path name : String) :
      Reachable s → Reachable (findFile fs s path name).state
  | afterReadDir (fs : FileSys) (s : State) (path name : String) :
      Reachable s → Reachable (readDir fs s path name).2

/-! ## Sample filesystems -/

/-- The bytes of the text hello. -/
def hello : Bytes := [104, 101, 108, 108, 111]

/-- The origin tree with the one directory `a` and the one file `a/b.txt`, holding
`hello`, next to an empty cache tier; every write is accepted. -/
def helloFS : FileSys where
  stat p :=
    if p = "/workspaces/cerebrium-fuse/nfs" then .ok .dir
    else if p = "/workspaces/cerebrium-fuse/nfs/a" then .ok .dir
    else if p = "/workspaces/cerebrium-fuse/nfs/a/b.txt" then .ok .regular
    else if p = "/workspaces/cerebrium-fuse/ssd" then .ok .dir
    else .error .ENOENT
  readFile p :=
    if p = "/workspaces/cerebrium-fuse/nfs/a/b.txt" then .ok hello
    else .error (.atOpen .ENOENT)
  readDir p :=
    if p = "/workspaces/cerebrium-fuse/nfs/" then .ok ["a"]
    else if p = "/workspaces/cerebrium-fuse/nfs/a" then .ok ["b.txt"]
    else .error .ENOENT
  writeFault _ := none

/-- The origin tree with two regular files of the same leaf name `x`, in the directories
`a` (content `1`) and `b` (content `2`), next to an empty cache tier; every write is
accepted. -/
def collideFS : FileSys where
  stat p :=
    if p = "/workspaces/cerebrium-fuse/nfs/a/x" then .ok .regular
    else if p = "/workspaces/cerebrium-fuse/nfs/b/x" then .ok .regular
    else if p = "/workspaces/cerebrium-fuse/nfs/a" then .ok .dir
    else if p = "/workspaces/cerebrium-fuse/nfs/b" then .ok .dir
    else .error .ENOENT
  readFile p :=
    if p = "/workspaces/cerebrium-fuse/nfs/a/x" then .ok [1]
    else if p = "/workspaces/cerebrium-fuse/nfs/b/x" then .ok [2]
    else .error (.atOpen .ENOENT)
  readDir _ := .error .ENOENT
  writeFault _ := none

/-- The origin tree in which `b/x` is a directory, while the cache tier holds a regular
file `x` (content `1`), as left there by an earlier read of a file `x` of another
directory. -/
def shadowFS : FileSys where
  stat p :=
    if p = "/workspaces/cerebrium-fuse/nfs/b/x" then .ok .dir
    else if p = "/workspaces/cerebrium-fuse/nfs/b" then .ok .dir
    else if p = "/workspaces/cerebrium-fuse/ssd/x" then .ok .regular
    else .error .ENOENT
  readFile p :=
    if p = "/workspaces/cerebrium-fuse/ssd/x" then .ok [1]
    else .error (.atOpen .ENOENT)
  readDir p :=
    if p = "/workspaces/cerebrium-fuse/nfs/b" then .ok ["x"]
    else .error .ENOENT
  writeFault _ := none

/-- The filesystem in which nothing exists. -/
def emptyFS : FileSys where
  stat _ := .error .ENOENT
  readFile _ := .error (.atOpen .ENOENT)
  readDir _ := .error .ENOENT
  writeFault _ := none

/-- The directory node of the directory `b` of the origin root. -/
def dirB : Dir := { name := "b", path := "/workspaces/cerebrium-fuse/nfs/b", inode := 2 }

/-- Globals whose index holds earlier records: a sub-directory `old` under the root and a
sub-directory `x` under the directory `b`. -/
def staleState : State where
  count := { inode := 7 }
  subDirs p :=
    if p = "/workspaces/cerebrium-fuse/nfs/" then
      [{ name := "old", path := "/workspaces/cerebrium-fuse/nfs/old", inode := 3 }]
    else if p = "/workspaces/cerebrium-fuse/nfs/b" then
      [{ name := "x", path := "/workspaces/cerebrium-fuse/nfs/b/x", inode := 5 }]
    else []

/-- The origin root with, in enumeration order, the directory `a`, the name `gone` whose
stat fails, the regular file `f.txt` and the directory `z`; the cache tier is empty. -/
def listFS : FileSys where
  stat p :=
    if p = "/workspaces/cerebrium-fuse/nfs/a" then .ok .dir
    else if p = "/workspaces/cerebrium-fuse/nfs/f.txt" then .ok .regular
    else if p = "/workspaces/cerebrium-fuse/nfs/z" then .ok .dir
    else .error .ENOENT
  readFile p :=
    if p = "/workspaces/cerebrium-fuse/nfs/f.txt" then .ok hello
    else .error (.atOpen .ENOENT)
  readDir p :=
    if p = "/workspaces/cerebrium-fuse/nfs/" then .ok ["a", "gone", "f.txt", "z"]
    else .error .ENOENT
  writeFault _ := none

/-- The root directory node as `FS.Root` returns it on the first call. -/
def rootDir : Dir := { name := "", path := "/workspaces/cerebrium-fuse/nfs/", inode := 1 }

/-! ## Facts about paths -/

theorem splitSlash_ne_nil (p : List Char) : splitSlash p ≠ [] := by
  induction p with
  | nil => simp [splitSlash]
  | cons c cs ih =>
    unfold splitSlash
    split
    · simp
    · split <;> simp

theorem splitSlash_of_no_slash (n : List Char) (h : '/' ∉ n) : splitSlash n = [n] := by
  induction n with
  | nil => rfl
  | cons c cs ih =>
    have hc : c ≠ '/' := fun e => h (by simp [e])
    have hcs : '/' ∉ cs := fun e => h (by simp [e])
    simp [splitSlash, hc, ih hcs]

theorem splitSlash_append (p n : List Char) (h : '/' ∉ n) :
    splitSlash (p ++ '/' :: n) = splitSlash p ++ [n] := by
  induction p with
  | nil => simp [splitSlash, splitSlash_of_no_slash n h]
  | cons c cs ih =>
    by_cases hc : c = '/'
    · simp [splitSlash, hc, ih]
    · have hne := splitSlash_ne_nil cs
      cases hs : splitSlash cs with
      | nil => exact absurd hs hne
      | cons e es => simp [splitSlash, hc, ih, hs]

theorem cleanStep_real (rooted : Bool) (out : List (List Char)) (n : List Char)
    (h0 : n ≠ []) (h1 : n ≠ ['.']) (h2 : n ≠ ['.', '.']) :
    cleanStep rooted out n = n :: out := by
  simp [cleanStep, h0, h1, h2]

theorem joinRev_cons (n : List Char) (out : List (List Char)) :
    ∃ q, endsDir q ∧ joinRev (n :: out) = q ++ n := by
  cases out with
  | nil => exact ⟨[], Or.inl rfl, by simp [joinRev]⟩
  | cons e es => exact ⟨joinRev (e :: es) ++ ['/'], Or.inr ⟨_, rfl⟩, by simp [joinRev]⟩

theorem trimSlashes_of_head (c : List Char) (x : Char) (hx : x ≠ '/') :
    trimSlashes (x :: c) = x :: c := by
  cases c with
  | nil => rfl
  | cons y ys => simp [trimSlashes, hx]

theorem takeWhile_no_slash (r t : List Char) (hr : ∀ y ∈ r, y ≠ '/') :
    List.takeWhile (fun y => decide (y ≠ '/')) (r ++ '/' :: t) = r := by
  induction r with
  | nil => simp [List.takeWhile]
  | cons y ys ih =>
    have hy : y ≠ '/' := hr y (by simp)
    have hys : ∀ z ∈ ys, z ≠ '/' := fun z hz => hr z (by simp [hz])
    have ih' := ih hys
    simp only [List.cons_append, List.takeWhile_cons, hy, ne_eq, not_false_eq_true, decide_True,
      if_true, List.cons.injEq, true_and]
    simpa using ih'

theorem takeWhile_all_no_slash (r : List Char) (hr : ∀ y ∈ r, y ≠ '/') :
    List.takeWhile (fun y => decide (y ≠ '/')) r = r := by
  induction r with
  | nil => rfl
  | cons y ys ih =>
    have hy : y ≠ '/' := hr y (by simp)
    have hys : ∀ z ∈ ys, z ≠ '/' := fun z hz => hr z (by simp [hz])
    have ih' := ih hys
    simp only [List.takeWhile_cons, hy, ne_eq, not_false_eq_true, decide_True,
      if_true, List.cons.injEq, true_and]
    simpa using ih'

theorem basenameChars_append (q n : List Char) (hq : endsDir q) (h0 : n ≠ [])
    (hs : '/' ∉ n) : basenameChars (q ++ n) = n := by
  have hrev : n.reverse ≠ [] := by simpa using h0
  cases hr : n.reverse with
  | nil => exact absurd hr hrev
  | cons x r =>
    have hmem : ∀ y ∈ x :: r, y ≠ '/' := by
      intro y hy e
      rw [← hr] at hy
      exact hs (by simpa [e] using hy)
    have hx : x ≠ '/' := hmem x (by simp)
    have hr' : ∀ y ∈ r, y ≠ '/' := fun y hy => hmem y (by simp [hy])
    have hn : n = (x :: r).reverse := by rw [← hr]; simp
    unfold basenameChars
    rw [List.reverse_append, hr, List.cons_append, trimSlashes_of_head _ _ hx]
    rcases hq with rfl | ⟨t, rfl⟩
    · simp only [List.reverse_nil, List.append_nil]
      rw [takeWhile_all_no_slash r hr']
      simp [hn]
    · simp only [List.reverse_append, List.reverse_cons, List.reverse_nil, List.nil_append,
        List.singleton_append]
      rw [takeWhile_no_slash r _ hr']
      simp [hn]

theorem cleanChars_append (p n : List Char) (h0 : n ≠ []) (hs : '/' ∉ n)
    (h1 : n ≠ ['.']) (h2 : n ≠ ['.', '.']) :
    ∃ q, endsDir q ∧ cleanChars (p ++ '/' :: n) = q ++ n := by
  have hne : p ++ '/' :: n ≠ [] := by simp
  unfold cleanChars
  rw [if_neg hne, splitSlash_append p n hs]
  simp only [List.foldl_append, List.foldl_cons, List.foldl_nil]
  rw [cleanStep_real _ _ n h0 h1 h2]
  obtain ⟨q, hq, e⟩ := joinRev_cons n
    (List.foldl (cleanStep (decide ((p ++ '/' :: n).head? = some '/'))) [] (splitSlash p))
  rw [e]
  split
  · refine ⟨'/' :: q, ?_, by simp⟩
    rcases hq with rfl | ⟨t, rfl⟩
    · exact Or.inr ⟨[], rfl⟩
    · exact Or.inr ⟨'/' :: t, rfl⟩
  · have : q ++ n ≠ [] := by simp [h0]
    rw [if_neg this]
    exact ⟨q, hq, rfl⟩

theorem cleanChars_name (n : List Char) (h0 : n ≠ []) (hs : '/' ∉ n)
    (h1 : n ≠ ['.']) (h2 : n ≠ ['.', '.']) : cleanChars n = n := by
  have hhead : ¬ (n.head? = some '/') := by
    cases n with
    | nil => simp
    | cons c cs =>
      intro e
      exact hs (by simp at e; simp [e])
  unfold cleanChars
  rw [if_neg h0, splitSlash_of_no_slash n hs]
  simp [hhead, cleanStep_real _ _ n h0 h1 h2, joinRev, h0]

/-- The base name of a path joined from any parent and a directory-entry name is that name. -/
theorem basename_Join (p n : String) (hn : validName n) : basename (Join p n) = n := by
  obtain ⟨h0, hs, h1, h2⟩ := hn
  have hn0 : n ≠ "" := fun e => h0 (by rw [e])
  unfold Join
  by_cases hp : p = ""
  · simp only [hp, ne_eq, not_true_eq_false, if_false, hn0, not_false_eq_true, if_true]
    show (⟨basenameChars (cleanChars n.data)⟩ : String) = n
    rw [cleanChars_name n.data h0 hs h1 h2]
    have := basenameChars_append [] n.data (Or.inl rfl) h0 hs
    simp only [List.nil_append] at this
    rw [this]
  · simp only [ne_eq, hp, not_false_eq_true, if_true]
    show (⟨basenameChars (cleanChars (p ++ "/" ++ n).data)⟩ : String) = n
    have hd : (p ++ "/" ++ n).data = p.data ++ '/' :: n.data := by
      simp [String.data_append]
    rw [hd]
    obtain ⟨q, hq, e⟩ := cleanChars_append p.data n.data h0 hs h1 h2
    rw [e, basenameChars_append q n.data hq h0 hs]

/-- A path joined to a non-empty rooted parent is never empty. -/
theorem Join_rooted_ne_empty (p n : String) (c : List Char) (hp : p.data = '/' :: c) :
    Join p n ≠ "" := by
  have hp0 : p ≠ "" := fun e => by rw [e] at hp; simp at hp
  unfold Join
  simp only [ne_eq, hp0, not_false_eq_true, if_true]
  have hd : (p ++ "/" ++ n).data = '/' :: (c ++ '/' :: n.data) := by
    simp [String.data_append, hp]
  intro e
  have := congrArg String.data e
  simp [Clean, cleanChars, hd] at this

theorem Join_cacheDir_ne_empty (n : String) : Join cacheDir n ≠ "" :=
  Join_rooted_ne_empty cacheDir n _ rfl

theorem dropWhile_no_slash (r t : List Char) (hr : ∀ y ∈ r, y ≠ '/') :
    List.dropWhile (fun y => decide (y ≠ '/')) (r ++ '/' :: t) = '/' :: t := by
  induction r with
  | nil => simp [List.dropWhile]
  | cons y ys ih =>
    have hy : y ≠ '/' := hr y (by simp)
    have hys : ∀ z ∈ ys, z ≠ '/' := fun z hz => hr z (by simp [hz])
    have ih' := ih hys
    simp only [List.cons_append, List.dropWhile_cons, hy, ne_eq, not_false_eq_true, decide_True,
      if_true]
    simpa using ih'

/-- The cache location of a leaf name lies directly in the cache directory. -/
theorem Join_cacheDir_leaf (n : String) (hn : validName n) :
    Join cacheDir n = cacheDir ++ n := by
  obtain ⟨h0, hs, h1, h2⟩ := hn
  have hc : cacheDir ≠ "" := by decide
  unfold Join
  simp only [ne_eq, hc, not_false_eq_true, if_true]
  apply String.ext
  show cleanChars (cacheDir ++ "/" ++ n).data = (cacheDir ++ n).data
  have hd : (cacheDir ++ "/" ++ n).data = cacheDir.data ++ '/' :: n.data := by
    simp [String.data_append]
  have hne : cacheDir.data ++ '/' :: n.data ≠ [] := by simp
  have hroot : (cacheDir.data ++ '/' :: n.data).head? = some '/' := by
    have : cacheDir.data = '/' :: "workspaces/cerebrium-fuse/ssd/".data := by decide
    rw [this]; rfl
  have hfold : List.foldl (cleanStep true) [] (splitSlash cacheDir.data) =
      ["ssd".data, "cerebrium-fuse".data, "workspaces".data] := by decide
  have hjoin : joinRev ["ssd".data, "cerebrium-fuse".data, "workspaces".data] =
      "workspaces/cerebrium-fuse/ssd".data := by decide
  rw [hd]
  unfold cleanChars
  rw [if_neg hne, splitSlash_append _ _ hs]
  simp only [hroot, decide_True, List.foldl_append, List.foldl_cons, List.foldl_nil, hfold,
    if_true]
  rw [cleanStep_real _ _ n.data h0 h1 h2]
  simp only [joinRev, hjoin]
  have : cacheDir.data = '/' :: ("workspaces/cerebrium-fuse/ssd".data ++ ['/']) := by decide
  simp [String.data_append, this]

/-- The directory that holds the cache location of a leaf name is the cache directory. -/
theorem Dir_Join_cacheDir_leaf (n : String) (hn : validName n) :
    filepath_Dir (Join cacheDir n) = Clean cacheDir := by
  rw [Join_cacheDir_leaf n hn]
  obtain ⟨-, hs, -, -⟩ := hn
  apply String.ext
  show dirChars (cacheDir ++ n).data = cleanChars cacheDir.data
  have hrev : cacheDir.data.reverse = '/' :: "dss/esuf-muirberec/secapskrow/".data := by decide
  have hmem : ∀ y ∈ n.data.reverse, y ≠ '/' := by
    intro y hy e
    exact hs (by simpa [e] using hy)
  unfold dirChars
  rw [String.data_append, List.reverse_append, hrev, dropWhile_no_slash _ _ hmem, ← hrev,
    List.reverse_reverse]

theorem length_pos_of_ne_empty (s : String) (h : s ≠ "") : s.length > 0 := by
  have : s.data ≠ [] := fun e => h (String.ext e)
  exact List.length_pos.mpr this

/-! ## The identity allocator -/

theorem nextInod.calls_eq (k c : Nat) (h : c + k < 2 ^ 64) :
    (nextInod.calls k { inode := c }).1 = List.range' (c + 1) k := by
  induction k generalizing c with
  | zero => rfl
  | succ k ih =>
    have hc : (c + 1) % 2 ^ 64 = c + 1 := Nat.mod_eq_of_lt (by omega)
    have := ih (c + 1) (by omega)
    simp only [nextInod.calls, nextInod.next, hc, this, List.range'_succ]

/-- C7. Any run of fewer than `2 ^ 64` calls of `next` on the counter, started at its zero
value, returns the values 1, 2, 3, ... in this order (the i-th call returns i), so every
returned value is strictly greater than all values returned before it and the values are
pairwise distinct. -/
theorem C7_identity_uniqueness (k : Nat) (hk : k < 2 ^ 64) :
    (nextInod.calls k { inode := 0 }).1 = List.range' 1 k ∧
    (∀ i, i < k → (nextInod.calls k { inode := 0 }).1[i]? = some (i + 1)) ∧
    (nextInod.calls k { inode := 0 }).1.Pairwise (fun a b => a < b) ∧
    (nextInod.calls k { inode := 0 }).1.Nodup := by
  have h := nextInod.calls_eq k 0 (by omega)
  simp only [Nat.zero_add] at h
  rw [h]
  refine ⟨rfl, ?_, ?_, ?_⟩
  · intro i hi
    rw [List.getElem?_range' _ _ hi]
    simp [Nat.add_comm]
  · exact List.pairwise_lt_range' 1 k
  · exact List.nodup_range' 1 k

/-- C7 on a run of three calls. -/
theorem C7_identity_uniqueness_witness :
    (nextInod.calls 3 { inode := 0 }).1 = List.range' 1 3 ∧
    (∀ i, i < 3 → (nextInod.calls 3 { inode := 0 }).1[i]? = some (i + 1)) ∧
    (nextInod.calls 3 { inode := 0 }).1.Pairwise (fun a b => a < b) ∧
    (nextInod.calls 3 { inode := 0 }).1.Nodup :=
  C7_identity_uniqueness 3 (by decide)

/-! ## Reading a file -/

/-- C8. `File.ReadAll` prefers the cache tier and falls back to the origin tier: when
`cachedPath` is not empty and reading it succeeds, the result is exactly those bytes, with
no error and without reaching the slow branch; in every other case (`cachedPath` empty, or
the read of it failing) the result is exactly that of reading `path` in the origin tier,
bytes or error, so a failed cache read never fails a `ReadAll` whose origin read succeeds. -/
theorem C8_ReadAll_tier_preference (fs : FileSys) (f : File) :
    (∀ data, f.cachedPath ≠ "" → os_ReadFile fs f.cachedPath = .ok data →
      f.ReadAll fs = { data := .ok data, slept := false }) ∧
    (f.cachedPath = "" → f.ReadAll fs = { data := os_ReadFile fs f.path, slept := true }) ∧
    (∀ err, os_ReadFile fs f.cachedPath = .error err →
      f.ReadAll fs = { data := os_ReadFile fs f.path, slept := true }) ∧
    (∀ err data, os_ReadFile fs f.cachedPath = .error err → os_ReadFile fs f.path = .ok data →
      (f.ReadAll fs).data = .ok data) := by
  refine ⟨?_, ?_, ?_, ?_⟩
  · intro data hne hok
    simp [File.ReadAll, length_pos_of_ne_empty _ hne, hok]
  · intro he
    simp [File.ReadAll, he]
  · intro err herr
    unfold File.ReadAll
    split <;> simp [herr]
  · intro err data herr hok
    unfold File.ReadAll
    split <;> simp [herr, hok]

/-- C8 on a node whose cached path cannot be read: the content comes from the origin tier. -/
theorem C8_ReadAll_tier_preference_witness :
    (({ path := "/workspaces/cerebrium-fuse/nfs/a/b.txt",
        cachedPath := "/workspaces/cerebrium-fuse/ssd/b.txt", inode := 1, size := 5 } : File).ReadAll
      helloFS).data = .ok hello :=
  (C8_ReadAll_tier_preference helloFS
    { path := "/workspaces/cerebrium-fuse/nfs/a/b.txt",
      cachedPath := "/workspaces/cerebrium-fuse/ssd/b.txt", inode := 1, size := 5 }).2.2.2
    (.PathError "open" "/workspaces/cerebrium-fuse/ssd/b.txt" .ENOENT) hello
    (by decide) (by decide)

/-! ## Resolving a file -/

/-- A cold resolution: the cache tier cannot stat the name, the origin tier has a regular,
readable file.  The file comes back without a cached path and the goroutine is started. -/
theorem findFile_cold (fs : FileSys) (s : State) (p n : String) (c : Bytes) (e : Errno)
    (hcache : fs.stat (Join cacheDir n) = .error e)
    (hstat : fs.stat (Join p n) = .ok .regular)
    (hread : fs.readFile (Join p n) = .ok c) :
    findFile fs s p n =
      { val := .ok { path := Join p n, cachedPath := "", inode := (s.count.inode + 1) % 2 ^ 64,
                     size := c.length }
        spawned := some { cachedPath := Join cacheDir n, content := c }
        state := { s with count := { inode := (s.count.inode + 1) % 2 ^ 64 } } } := by
  simp [findFile, nextInod.next, os_Stat, hcache, hstat, FileInfo.IsRegular, File.ReadAll,
    os_ReadFile, hread]

/-- A warm resolution: the cache tier holds a regular, readable file of that name.  The
file comes back with its cached path and no goroutine is started. -/
theorem findFile_warm (fs : FileSys) (s : State) (p n : String) (c : Bytes)
    (hstat : fs.stat (Join cacheDir n) = .ok .regular)
    (hread : fs.readFile (Join cacheDir n) = .ok c) :
    findFile fs s p n =
      { val := .ok { path := Join p n, cachedPath := Join cacheDir n,
                     inode := (s.count.inode + 1) % 2 ^ 64, size := c.length }
        spawned := none
        state := { s with count := { inode := (s.count.inode + 1) % 2 ^ 64 } } } := by
  have hne := Join_cacheDir_ne_empty n
  have hpos := length_pos_of_ne_empty _ hne
  simp [findFile, nextInod.next, os_Stat, hstat, FileInfo.IsRegular, File.ReadAll,
    os_ReadFile, hread, hne, hpos]

/-- A name that the origin tier knows as a directory and the cache tier does not hold as
a regular file makes `findFile` signal `ErrIsDir`. -/
theorem findFile_ErrIsDir (fs : FileSys) (s : State) (p n : String)
    (hdir : fs.stat (Join p n) = .ok .dir)
    (hcache : fs.stat (Join cacheDir n) ≠ .ok .regular) :
    findFile fs s p n =
      { val := .error .ErrIsDir, spawned := none
        state := { s with count := { inode := (s.count.inode + 1) % 2 ^ 64 } } } := by
  cases hc : fs.stat (Join cacheDir n) with
  | error e =>
    simp [findFile, nextInod.next, os_Stat, hc, hdir, FileInfo.IsRegular]
  | ok m =>
    have hm : m ≠ .regular := fun e => hcache (by rw [hc, e])
    simp [findFile, nextInod.next, os_Stat, hc, FileInfo.IsRegular, hm]

/-- The function `findFile` returns the index as it found it. -/
theorem findFile_subDirs (fs : FileSys) (s : State) (p n : String) :
    (findFile fs s p n).state.subDirs = s.subDirs := by
  unfold findFile
  simp only
  split
  · rfl
  · split
    · rfl
    · split <;> [rfl; (split <;> rfl)]

/-- A write for which the filesystem holds no fault, of a path that is absent or a
regular file, returns no error and leaves the file with the data. -/
theorem os_WriteFile_ok (fs : FileSys) (name : String) (data : Bytes)
    (hw : fs.writeFault name = none)
    (hs : (∃ e, fs.stat name = .error e) ∨ fs.stat name = .ok .regular) :
    os_WriteFile fs name data = (none, fs.withFile name data) := by
  unfold os_WriteFile
  rcases hs with ⟨e, he⟩ | he <;> simp [hw, he]

/-- A write of a path that is absent or a regular file, when it returns no error, has
left the file with the data. -/
theorem os_WriteFile_of_no_error (fs : FileSys) (name : String) (data : Bytes)
    (hs : (∃ e, fs.stat name = .error e) ∨ fs.stat name = .ok .regular)
    (h : (os_WriteFile fs name data).1 = none) :
    os_WriteFile fs name data = (none, fs.withFile name data) := by
  cases hw : fs.writeFault name with
  | none => exact os_WriteFile_ok fs name data hw hs
  | some fault =>
    exfalso
    cases fault with
    | atOpen e => simp [os_WriteFile, hw] at h
    | atWrite e k =>
      rcases hs with ⟨e', he⟩ | he <;> simp [os_WriteFile, hw, he] at h

theorem withFile_stat_self (fs : FileSys) (name : String) (data : Bytes) :
    (fs.withFile name data).stat name = .ok .regular := by
  simp [FileSys.withFile]

theorem withFile_readFile_self (fs : FileSys) (name : String) (data : Bytes) :
    (fs.withFile name data).readFile name = .ok data := by
  simp [FileSys.withFile]

/-- Whatever becomes of a write, it changes no file but the one written and no listing
but that of the directory which holds it. -/
theorem os_WriteFile_frame (fs : FileSys) (name : String) (data : Bytes) :
    (∀ q, Clean q ≠ Clean name →
      (os_WriteFile fs name data).2.stat q = fs.stat q ∧
      (os_WriteFile fs name data).2.readFile q = fs.readFile q) ∧
    (∀ q, Clean q ≠ filepath_Dir name →
      (os_WriteFile fs name data).2.readDir q = fs.readDir q) := by
  have hwith : ∀ landed : Bytes,
      (∀ q, Clean q ≠ Clean name →
        (fs.withFile name landed).stat q = fs.stat q ∧
        (fs.withFile name landed).readFile q = fs.readFile q) ∧
      (∀ q, Clean q ≠ filepath_Dir name → (fs.withFile name landed).readDir q = fs.readDir q) := by
    intro landed
    exact ⟨fun q hq => by simp [FileSys.withFile, hq], fun q hq => by simp [FileSys.withFile, hq]⟩
  unfold os_WriteFile
  cases hw : fs.writeFault name with
  | none =>
    cases hst : fs.stat name with
    | error e => simpa using hwith data
    | ok m =>
      cases m with
      | regular => simpa using hwith data
      | dir => simp
      | other => simp
  | some fault =>
    cases fault with
    | atOpen e => simp
    | atWrite e k =>
      cases hst : fs.stat name with
      | error e' => simpa using hwith (data.take k)
      | ok m =>
        cases m with
        | regular => simpa using hwith (data.take k)
        | dir => simp
        | other => simp

/-- The filesystem after the population of a cold resolution whose write returned no
error. -/
theorem afterPopulation_cold (fs : FileSys) (s : State) (p n : String) (c : Bytes)
    (hcache : fs.stat (Join cacheDir n) = .error .ENOENT)
    (hstat : fs.stat (Join p n) = .ok .regular)
    (hread : fs.readFile (Join p n) = .ok c)
    (hpop : (os_WriteFile fs (Join cacheDir n) c).1 = none) :
    afterPopulation fs (findFile fs s p n) = fs.withFile (Join cacheDir n) c := by
  rw [findFile_cold fs s p n c .ENOENT hcache hstat hread]
  simp [afterPopulation, Population.run,
    os_WriteFile_of_no_error fs _ c (Or.inl ⟨_, hcache⟩) hpop]

theorem contentOf_warm (fs : FileSys) (s : State) (p n : String) (c : Bytes)
    (hstat : fs.stat (Join cacheDir n) = .ok .regular)
    (hread : fs.readFile (Join cacheDir n) = .ok c) :
    contentOf fs (findFile fs s p n).val = .ok c := by
  have hpos := length_pos_of_ne_empty _ (Join_cacheDir_ne_empty n)
  rw [findFile_warm fs s p n c hstat hread]
  simp [contentOf, File.ReadAll, os_ReadFile, hpos, hread]

/-- C1. Cold-then-warm round trip.  When `Join p n` is a regular file with content `c` in
the origin tier and the cache tier holds no entry `n`, `findFile p n` succeeds with a file
of path `Join p n`, size `len c`, whose `ReadAll` is `c` (read from the origin tier), and
starts the population.  Once the population has run, its `os.WriteFile` returning no
error, the cache tier holds a regular file `n` with content `c`, and a second
`findFile p n`, in whatever state of the globals, returns a file with cached path
`Join cacheDir n` and size `len c` whose `ReadAll` returns `c` without reaching the
origin-tier branch and its delay, whatever the origin tier then holds. -/
theorem C1_cold_then_warm_round_trip (fs : FileSys) (s : State) (p n : String) (c : Bytes)
    (hstat : fs.stat (Join p n) = .ok .regular)
    (hread : fs.readFile (Join p n) = .ok c)
    (hcache : fs.stat (Join cacheDir n) = .error .ENOENT)
    (hpop : (os_WriteFile fs (Join cacheDir n) c).1 = none) :
    ∃ file g,
      (findFile fs s p n).val = .ok file ∧ (findFile fs s p n).spawned = some g ∧
      file.path = Join p n ∧ file.size = c.length ∧
      file.ReadAll fs = { data := .ok c, slept := true } ∧
      (afterPopulation fs (findFile fs s p n)).stat (Join cacheDir n) = .ok .regular ∧
      (afterPopulation fs (findFile fs s p n)).readFile (Join cacheDir n) = .ok c ∧
      ∀ s2 : State, ∃ file2,
        (findFile (afterPopulation fs (findFile fs s p n)) s2 p n).val = .ok file2 ∧
        (findFile (afterPopulation fs (findFile fs s p n)) s2 p n).spawned = none ∧
        file2.path = Join p n ∧ file2.cachedPath = Join cacheDir n ∧
        file2.size = c.length ∧
        file2.ReadAll (afterPopulation fs (findFile fs s p n)) =
          { data := .ok c, slept := false } ∧
        ∀ fs2 : FileSys, fs2.readFile (Join cacheDir n) = .ok c →
          file2.ReadAll fs2 = { data := .ok c, slept := false } := by
  have hcold := findFile_cold fs s p n c .ENOENT hcache hstat hread
  have hne := Join_cacheDir_ne_empty n
  have hpos := length_pos_of_ne_empty _ hne
  have hafter := afterPopulation_cold fs s p n c hcache hstat hread hpop
  rw [hafter]
  refine ⟨_, _, by rw [hcold], by rw [hcold], rfl, rfl, ?_, withFile_stat_self _ _ _,
    withFile_readFile_self _ _ _, ?_⟩
  · simp [File.ReadAll, os_ReadFile, hread]
  · intro s2
    have hwarm := findFile_warm (fs.withFile (Join cacheDir n) c) s2 p n c
      (withFile_stat_self _ _ _) (withFile_readFile_self _ _ _)
    refine ⟨_, by rw [hwarm], by rw [hwarm], rfl, rfl, rfl, ?_, ?_⟩
    · simp [File.ReadAll, os_ReadFile, hpos, withFile_readFile_self]
    · intro fs2 h2
      simp [File.ReadAll, os_ReadFile, hpos, h2]

/-- C1 on the scenario of the origin file `a/b.txt` holding `hello` and an empty cache tier. -/
theorem C1_cold_then_warm_round_trip_witness :
    helloFS.stat (Join "/workspaces/cerebrium-fuse/nfs/a" "b.txt") = .ok .regular ∧
    helloFS.readFile (Join "/workspaces/cerebrium-fuse/nfs/a" "b.txt") = .ok hello ∧
    helloFS.stat (Join cacheDir "b.txt") = .error .ENOENT ∧
    (os_WriteFile helloFS (Join cacheDir "b.txt") hello).1 = none ∧
    ∃ file g,
      (findFile helloFS State.init "/workspaces/cerebrium-fuse/nfs/a" "b.txt").val = .ok file ∧
      (findFile helloFS State.init "/workspaces/cerebrium-fuse/nfs/a" "b.txt").spawned
        = some g ∧
      file.path = Join "/workspaces/cerebrium-fuse/nfs/a" "b.txt" ∧ file.size = hello.length ∧
      file.ReadAll helloFS = { data := .ok hello, slept := true } ∧
      (afterPopulation helloFS
        (findFile helloFS State.init "/workspaces/cerebrium-fuse/nfs/a" "b.txt")).stat
          (Join cacheDir "b.txt") = .ok .regular ∧
      (afterPopulation helloFS
        (findFile helloFS State.init "/workspaces/cerebrium-fuse/nfs/a" "b.txt")).readFile
          (Join cacheDir "b.txt") = .ok hello ∧
      ∀ s2 : State, ∃ file2,
        (findFile (afterPopulation helloFS
            (findFile helloFS State.init "/workspaces/cerebrium-fuse/nfs/a" "b.txt"))
          s2 "/workspaces/cerebrium-fuse/nfs/a" "b.txt").val = .ok file2 ∧
        (findFile (afterPopulation helloFS
            (findFile helloFS State.init "/workspaces/cerebrium-fuse/nfs/a" "b.txt"))
          s2 "/workspaces/cerebrium-fuse/nfs/a" "b.txt").spawned = none ∧
        file2.path = Join "/workspaces/cerebrium-fuse/nfs/a" "b.txt" ∧
        file2.cachedPath = Join cacheDir "b.txt" ∧
        file2.size = hello.length ∧
        file2.ReadAll (afterPopulation helloFS
            (findFile helloFS State.init "/workspaces/cerebrium-fuse/nfs/a" "b.txt")) =
          { data := .ok hello, slept := false } ∧
        ∀ fs2 : FileSys, fs2.readFile (Join cacheDir "b.txt") = .ok hello →
          file2.ReadAll fs2 = { data := .ok hello, slept := false } :=
  ⟨by decide, by decide, by decide, by decide,
    C1_cold_then_warm_round_trip helloFS State.init "/workspaces/cerebrium-fuse/nfs/a" "b.txt"
      hello (by decide) (by decide) (by decide) (by decide)⟩

/-- C2, as stated, fails.  Two origin files `a/x` (content 1) and `b/x` (content 2), an
empty cache tier: after `a/x` was resolved and its population ran, and `b/x` was resolved
and whatever it started ran, the cache file `x` holds 1, not 2, and a later resolution of
`a/x` reads 1. -/
theorem C2_counterexample :
    collideFS.stat (Join "/workspaces/cerebrium-fuse/nfs/a" "x") = .ok .regular ∧
    collideFS.readFile (Join "/workspaces/cerebrium-fuse/nfs/a" "x") = .ok [1] ∧
    collideFS.stat (Join "/workspaces/cerebrium-fuse/nfs/b" "x") = .ok .regular ∧
    collideFS.readFile (Join "/workspaces/cerebrium-fuse/nfs/b" "x") = .ok [2] ∧
    collideFS.stat (Join cacheDir "x") = .error .ENOENT ∧
    (afterPopulation collideFS
        (findFile collideFS State.init "/workspaces/cerebrium-fuse/nfs/a" "x")).readFile
      (Join cacheDir "x") = .ok [1] ∧
    (resolveInTurn collideFS State.init "/workspaces/cerebrium-fuse/nfs/a"
        "/workspaces/cerebrium-fuse/nfs/b" "x").1.readFile (Join cacheDir "x") = .ok [1] ∧
    (resolveInTurn collideFS State.init "/workspaces/cerebrium-fuse/nfs/a"
        "/workspaces/cerebrium-fuse/nfs/b" "x").1.readFile (Join cacheDir "x") ≠ .ok [2] ∧
    contentOf
      (resolveInTurn collideFS State.init "/workspaces/cerebrium-fuse/nfs/a"
        "/workspaces/cerebrium-fuse/nfs/b" "x").1
      (findFile
        (resolveInTurn collideFS State.init "/workspaces/cerebrium-fuse/nfs/a"
          "/workspaces/cerebrium-fuse/nfs/b" "x").1
        (resolveInTurn collideFS State.init "/workspaces/cerebrium-fuse/nfs/a"
          "/workspaces/cerebrium-fuse/nfs/b" "x").2
        "/workspaces/cerebrium-fuse/nfs/a" "x").val ≠ .ok [2] := by
  decide

/-- C2, amended.  Two origin files of the same leaf name, `Join p1 n` a regular file with
content `A` and `Join p2 n` whatever it is (in particular a regular file with another
content `B`), and a cache tier without entry `n`.  After `(p1, n)` was resolved and its
population has run, its `os.WriteFile` returning no error, the resolution of `(p2, n)`
finds the copy of the first file in the cache tier: it returns a node whose `ReadAll`
yields `A` and starts no population.  So nothing overwrites the cache file `n`, which
holds `A`, and every later `findFile` of `(p1, n)` and of `(p2, n)` returns a node whose
`ReadAll` yields `A`, the content of the first file. -/
theorem C2_cache_key_collision (fs : FileSys) (s : State) (p1 p2 n : String) (A : Bytes)
    (hA : fs.stat (Join p1 n) = .ok .regular) (hA' : fs.readFile (Join p1 n) = .ok A)
    (hcache : fs.stat (Join cacheDir n) = .error .ENOENT)
    (hpop : (os_WriteFile fs (Join cacheDir n) A).1 = none) :
    (findFile (afterPopulation fs (findFile fs s p1 n)) (findFile fs s p1 n).state p2 n).spawned
      = none ∧
    contentOf (afterPopulation fs (findFile fs s p1 n))
      (findFile (afterPopulation fs (findFile fs s p1 n)) (findFile fs s p1 n).state p2 n).val
      = .ok A ∧
    (resolveInTurn fs s p1 p2 n).1.readFile (Join cacheDir n) = .ok A ∧
    ∀ s3 : State,
      contentOf (resolveInTurn fs s p1 p2 n).1
        (findFile (resolveInTurn fs s p1 p2 n).1 s3 p1 n).val = .ok A ∧
      contentOf (resolveInTurn fs s p1 p2 n).1
        (findFile (resolveInTurn fs s p1 p2 n).1 s3 p2 n).val = .ok A := by
  have h1 := afterPopulation_cold fs s p1 n A hcache hA hA' hpop
  have hst : (afterPopulation fs (findFile fs s p1 n)).stat (Join cacheDir n) = .ok .regular := by
    rw [h1]; exact withFile_stat_self _ _ _
  have hrd : (afterPopulation fs (findFile fs s p1 n)).readFile (Join cacheDir n) = .ok A := by
    rw [h1]; exact withFile_readFile_self _ _ _
  have hturn : (resolveInTurn fs s p1 p2 n).1 = afterPopulation fs (findFile fs s p1 n) := by
    simp only [resolveInTurn]
    rw [findFile_warm _ _ p2 n A hst hrd]
    rfl
  refine ⟨?_, contentOf_warm _ _ p2 n A hst hrd, ?_, ?_⟩
  · rw [findFile_warm _ _ p2 n A hst hrd]
  · rw [hturn]; exact hrd
  · intro s3
    rw [hturn]
    exact ⟨contentOf_warm _ _ p1 n A hst hrd, contentOf_warm _ _ p2 n A hst hrd⟩

/-- C2, amended, on the files `a/x` (content 1) and `b/x` (content 2): resolved in turn,
the cache file holds 1 and a later resolution of either of them reads 1. -/
theorem C2_cache_key_collision_witness :
    collideFS.stat (Join "/workspaces/cerebrium-fuse/nfs/a" "x") = .ok .regular ∧
    collideFS.readFile (Join "/workspaces/cerebrium-fuse/nfs/a" "x") = .ok [1] ∧
    collideFS.stat (Join "/workspaces/cerebrium-fuse/nfs/b" "x") = .ok .regular ∧
    collideFS.readFile (Join "/workspaces/cerebrium-fuse/nfs/b" "x") = .ok [2] ∧
    collideFS.stat (Join cacheDir "x") = .error .ENOENT ∧
    (os_WriteFile collideFS (Join cacheDir "x") [1]).1 = none ∧
    (resolveInTurn collideFS State.init "/workspaces/cerebrium-fuse/nfs/a"
        "/workspaces/cerebrium-fuse/nfs/b" "x").1.readFile (Join cacheDir "x") = .ok [1] ∧
    ∀ s3 : State,
      contentOf
        (resolveInTurn collideFS State.init "/workspaces/cerebrium-fuse/nfs/a"
          "/workspaces/cerebrium-fuse/nfs/b" "x").1
        (findFile
          (resolveInTurn collideFS State.init "/workspaces/cerebrium-fuse/nfs/a"
            "/workspaces/cerebrium-fuse/nfs/b" "x").1
          s3 "/workspaces/cerebrium-fuse/nfs/a" "x").val = .ok [1] ∧
      contentOf
        (resolveInTurn collideFS State.init "/workspaces/cerebrium-fuse/nfs/a"
          "/workspaces/cerebrium-fuse/nfs/b" "x").1
        (findFile
          (resolveInTurn collideFS State.init "/workspaces/cerebrium-fuse/nfs/a"
            "/workspaces/cerebrium-fuse/nfs/b" "x").1
          s3 "/workspaces/cerebrium-fuse/nfs/b" "x").val = .ok [1] :=
  ⟨by decide, by decide, by decide, by decide, by decide, by decide,
    (C2_cache_key_collision collideFS State.init "/workspaces/cerebrium-fuse/nfs/a"
      "/workspaces/cerebrium-fuse/nfs/b" "x" [1]
      (by decide) (by decide) (by decide) (by decide)).2.2⟩

/-! ## The population and the node already returned -/

/-- C10, as stated, fails.  `a/b.txt` is resolved cold: the returned node has no cached
path.  After the population has run, that same node carries the cached path, and a
`ReadAll` on it takes the cache-tier branch. -/
theorem C10_counterexample :
    ∃ file g,
      (findFile helloFS State.init "/workspaces/cerebrium-fuse/nfs/a" "b.txt").val = .ok file ∧
      (findFile helloFS State.init "/workspaces/cerebrium-fuse/nfs/a" "b.txt").spawned = some g ∧
      file.cachedPath = "" ∧
      (g.run helloFS file).2.cachedPath = "/workspaces/cerebrium-fuse/ssd/b.txt" ∧
      (g.run helloFS file).2.cachedPath ≠ "" ∧
      ((g.run helloFS file).2.ReadAll (g.run helloFS file).1) =
        { data := .ok hello, slept := false } :=
  ⟨{ path := "/workspaces/cerebrium-fuse/nfs/a/b.txt", cachedPath := "", inode := 1, size := 5 },
    { cachedPath := "/workspaces/cerebrium-fuse/ssd/b.txt", content := hello },
    by decide, by decide, by decide, by decide, by decide, by decide⟩

/-- C10, amended.  For every cold resolution (`findFile p n` succeeding with the cache
tier holding no entry `n`, so that the returned node has an empty cached path), the
population changes in the filesystem only the cache tier: no file but the cache location
`Join cacheDir n` and no listing but that of the directory which holds it, for a leaf
name `n` the file `n` directly in the cache directory.  The node already returned keeps
its path, inode and size; but when the `os.WriteFile` of the population returns no error
its cached path is set to `Join cacheDir n`, so that a `ReadAll` on that same node after
the population takes the cache-tier branch and returns the content.  A later, fresh
`findFile` observes the cached path as well. -/
theorem C10_population_patches_node (fs : FileSys) (s : State) (p n : String) (c : Bytes)
    (hstat : fs.stat (Join p n) = .ok .regular)
    (hread : fs.readFile (Join p n) = .ok c)
    (hcache : fs.stat (Join cacheDir n) = .error .ENOENT) :
    ∃ file g,
      (findFile fs s p n).val = .ok file ∧ (findFile fs s p n).spawned = some g ∧
      file.cachedPath = "" ∧
      (∀ q, Clean q ≠ Clean (Join cacheDir n) →
        (g.run fs file).1.stat q = fs.stat q ∧ (g.run fs file).1.readFile q = fs.readFile q) ∧
      (∀ q, Clean q ≠ filepath_Dir (Join cacheDir n) →
        (g.run fs file).1.readDir q = fs.readDir q) ∧
      (validName n →
        Join cacheDir n = cacheDir ++ n ∧ filepath_Dir (Join cacheDir n) = Clean cacheDir) ∧
      (g.run fs file).2.path = file.path ∧ (g.run fs file).2.inode = file.inode ∧
      (g.run fs file).2.size = file.size ∧
      ((os_WriteFile fs (Join cacheDir n) c).1 = none →
        (g.run fs file).2.cachedPath = Join cacheDir n ∧
        (g.run fs file).2.cachedPath ≠ "" ∧
        (g.run fs file).2.ReadAll (g.run fs file).1 = { data := .ok c, slept := false } ∧
        ∀ s2 : State, ∃ file2,
          (findFile (g.run fs file).1 s2 p n).val = .ok file2 ∧
          file2.cachedPath = Join cacheDir n) := by
  have hcold := findFile_cold fs s p n c .ENOENT hcache hstat hread
  have hne := Join_cacheDir_ne_empty n
  have hpos := length_pos_of_ne_empty _ hne
  have hframe := os_WriteFile_frame fs (Join cacheDir n) c
  have hrun1 : ∀ file : File,
      (Population.run { cachedPath := Join cacheDir n, content := c } fs file).1 =
        (os_WriteFile fs (Join cacheDir n) c).2 := by
    intro file
    unfold Population.run
    split <;> simp_all
  have hrun2 : ∀ file : File,
      (Population.run { cachedPath := Join cacheDir n, content := c } fs file).2.path = file.path ∧
      (Population.run { cachedPath := Join cacheDir n, content := c } fs file).2.inode
        = file.inode ∧
      (Population.run { cachedPath := Join cacheDir n, content := c } fs file).2.size
        = file.size := by
    intro file
    unfold Population.run
    split <;> simp
  refine ⟨_, _, by rw [hcold], by rw [hcold], rfl, ?_, ?_,
    fun hn => ⟨Join_cacheDir_leaf n hn, Dir_Join_cacheDir_leaf n hn⟩,
    (hrun2 _).1, (hrun2 _).2.1, (hrun2 _).2.2, ?_⟩
  · intro q hq
    rw [hrun1]
    exact hframe.1 q hq
  · intro q hq
    rw [hrun1]
    exact hframe.2 q hq
  · intro hpop
    have hw := os_WriteFile_of_no_error fs (Join cacheDir n) c (Or.inl ⟨_, hcache⟩) hpop
    have hrun : ∀ file : File,
        Population.run { cachedPath := Join cacheDir n, content := c } fs file =
          (fs.withFile (Join cacheDir n) c, { file with cachedPath := Join cacheDir n }) := by
      intro file
      simp [Population.run, hw]
    rw [hrun]
    refine ⟨rfl, hne, ?_, ?_⟩
    · simp [File.ReadAll, os_ReadFile, hpos, withFile_readFile_self]
    · intro s2
      have hwarm := findFile_warm (fs.withFile (Join cacheDir n) c) s2 p n c
        (withFile_stat_self _ _ _) (withFile_readFile_self _ _ _)
      exact ⟨_, by rw [hwarm], rfl⟩

/-- C10, amended, on the cold resolution of `a/b.txt`. -/
theorem C10_population_patches_node_witness :
    helloFS.stat (Join "/workspaces/cerebrium-fuse/nfs/a" "b.txt") = .ok .regular ∧
    helloFS.readFile (Join "/workspaces/cerebrium-fuse/nfs/a" "b.txt") = .ok hello ∧
    helloFS.stat (Join cacheDir "b.txt") = .error .ENOENT ∧
    ∃ file g,
      (findFile helloFS State.init "/workspaces/cerebrium-fuse/nfs/a" "b.txt").val = .ok file ∧
      (findFile helloFS State.init "/workspaces/cerebrium-fuse/nfs/a" "b.txt").spawned = some g ∧
      file.cachedPath = "" ∧
      (∀ q, Clean q ≠ Clean (Join cacheDir "b.txt") →
        (g.run helloFS file).1.stat q = helloFS.stat q ∧
        (g.run helloFS file).1.readFile q = helloFS.readFile q) ∧
      (∀ q, Clean q ≠ filepath_Dir (Join cacheDir "b.txt") →
        (g.run helloFS file).1.readDir q = helloFS.readDir q) ∧
      (validName "b.txt" →
        Join cacheDir "b.txt" = cacheDir ++ "b.txt" ∧
        filepath_Dir (Join cacheDir "b.txt") = Clean cacheDir) ∧
      (g.run helloFS file).2.path = file.path ∧ (g.run helloFS file).2.inode = file.inode ∧
      (g.run helloFS file).2.size = file.size ∧
      ((os_WriteFile helloFS (Join cacheDir "b.txt") hello).1 = none →
        (g.run helloFS file).2.cachedPath = Join cacheDir "b.txt" ∧
        (g.run helloFS file).2.cachedPath ≠ "" ∧
        (g.run helloFS file).2.ReadAll (g.run helloFS file).1 =
          { data := .ok hello, slept := false } ∧
        ∀ s2 : State, ∃ file2,
          (findFile (g.run helloFS file).1 s2 "/workspaces/cerebrium-fuse/nfs/a" "b.txt").val
            = .ok file2 ∧
          file2.cachedPath = Join cacheDir "b.txt") :=
  ⟨by decide, by decide, by decide,
    C10_population_patches_node helloFS State.init "/workspaces/cerebrium-fuse/nfs/a" "b.txt"
      hello (by decide) (by decide) (by decide)⟩

/-! ## Listing a directory -/

/-- The dirents the loop appends: one per listed name whose stat succeeds, in order, named
by the base name of the full path and typed by the mode. -/
theorem ReadDirAll_loop_dirents (fs : FileSys) (d : Dir) (files : List String) (s : State)
    (acc : List Dirent) :
    (Dir.ReadDirAll.loop fs d files s acc).1.map (fun e => (e.Name, e.Type_)) =
      acc.map (fun e => (e.Name, e.Type_)) ++
        files.filterMap (fun x =>
          match fs.stat (Join d.path x) with
          | .ok m => some (basename (Join d.path x), direntTypeOf m)
          | .error _ => none) := by
  induction files generalizing s acc with
  | nil => simp [Dir.ReadDirAll.loop]
  | cons x xs ih =>
    cases hst : fs.stat (Join d.path x) with
    | error e =>
      simp [Dir.ReadDirAll.loop, os_Stat, hst, ih]
    | ok m =>
      by_cases hm : m = .dir
      · simp [Dir.ReadDirAll.loop, os_Stat, hst, ih, FileInfo.IsDir, hm, direntTypeOf]
      · simp [Dir.ReadDirAll.loop, os_Stat, hst, ih, FileInfo.IsDir, hm, direntTypeOf]

/-- The index entries the loop appends under `d.path`: one per listed name whose stat
reports a directory, in order. -/
theorem ReadDirAll_loop_index (fs : FileSys) (d : Dir) (files : List String) (s : State)
    (acc : List Dirent) :
    ((Dir.ReadDirAll.loop fs d files s acc).2.subDirs d.path).map (fun x => (x.name, x.path)) =
      (s.subDirs d.path).map (fun x => (x.name, x.path)) ++
        (files.filter (fun x => decide (fs.stat (Join d.path x) = .ok .dir))).map
          (fun x => (x, Join d.path x)) := by
  induction files generalizing s acc with
  | nil => simp [Dir.ReadDirAll.loop]
  | cons x xs ih =>
    cases hst : fs.stat (Join d.path x) with
    | error e =>
      simp [Dir.ReadDirAll.loop, os_Stat, hst, ih]
    | ok m =>
      by_cases hm : m = .dir
      · simp [Dir.ReadDirAll.loop, os_Stat, hst, ih, FileInfo.IsDir, hm]
      · simp [Dir.ReadDirAll.loop, os_Stat, hst, ih, FileInfo.IsDir, hm]

/-- The loop leaves the index entry of every other path alone. -/
theorem ReadDirAll_loop_frame (fs : FileSys) (d : Dir) (files : List String) (s : State)
    (acc : List Dirent) (q : String) (hq : q ≠ d.path) :
    (Dir.ReadDirAll.loop fs d files s acc).2.subDirs q = s.subDirs q := by
  induction files generalizing s acc with
  | nil => simp [Dir.ReadDirAll.loop]
  | cons x xs ih =>
    cases hst : fs.stat (Join d.path x) with
    | error e =>
      simp [Dir.ReadDirAll.loop, os_Stat, hst, ih]
    | ok m =>
      by_cases hm : m = .dir
      · simp [Dir.ReadDirAll.loop, os_Stat, hst, ih, FileInfo.IsDir, hm,
          Function.update_noteq hq]
      · simp [Dir.ReadDirAll.loop, os_Stat, hst, ih, FileInfo.IsDir, hm]

theorem ReadDirAll_ok (fs : FileSys) (s : State) (d : Dir) (names : List String)
    (hlist : fs.readDir d.path = .ok names) :
    Dir.ReadDirAll fs s d =
      (.ok (Dir.ReadDirAll.loop fs d names
              { s with subDirs := Function.update s.subDirs d.path [] } []).1,
        (Dir.ReadDirAll.loop fs d names
              { s with subDirs := Function.update s.subDirs d.path [] } []).2) := by
  simp [Dir.ReadDirAll, os_ReadDir, hlist]

theorem ReadDirAll_error (fs : FileSys) (s : State) (d : Dir) (e : Errno)
    (hlist : fs.readDir d.path = .error e) :
    Dir.ReadDirAll fs s d =
      (.error (.ErrorfW "failed to read path dir: %s : %w" [d.path]
        (.PathError "open" d.path e)), s) := by
  simp [Dir.ReadDirAll, os_ReadDir, hlist]

/-- The index after a successful listing: rebuilt under `d.path`, untouched elsewhere. -/
theorem ReadDirAll_index (fs : FileSys) (s : State) (d : Dir) (names : List String)
    (hlist : fs.readDir d.path = .ok names) :
    ((Dir.ReadDirAll fs s d).2.subDirs d.path).map (fun x => (x.name, x.path)) =
        (names.filter (fun x => decide (fs.stat (Join d.path x) = .ok .dir))).map
          (fun x => (x, Join d.path x)) ∧
      ∀ q, q ≠ d.path → (Dir.ReadDirAll fs s d).2.subDirs q = s.subDirs q := by
  rw [ReadDirAll_ok fs s d names hlist]
  constructor
  · rw [ReadDirAll_loop_index]
    simp
  · intro q hq
    rw [ReadDirAll_loop_frame fs d names _ _ q hq]
    simp [Function.update_noteq hq]

/-- C6. `Dir.ReadDirAll d` returns an error, and no listing, exactly when the origin-tier
listing of `d.path` fails.  When that listing succeeds with the entry names `names`, it
returns one dirent per entry whose stat succeeds, in the order of the enumeration, with
the name of the entry and the type `DT_Dir` if the stat reports a directory and `DT_File`
otherwise; an entry whose stat fails is left out and the others are still returned; when
every entry can be stat-ed the listing has exactly as many dirents as entries, the i-th
with the name of the i-th entry. -/
theorem C6_listing_completeness_and_order (fs : FileSys) (s : State) (d : Dir) :
    ((∃ err, (Dir.ReadDirAll fs s d).1 = .error err) ↔ ∃ e, fs.readDir d.path = .error e) ∧
    ∀ names, fs.readDir d.path = .ok names → (∀ x ∈ names, validName x) →
      ∃ ents, (Dir.ReadDirAll fs s d).1 = .ok ents ∧
        ents.map (fun e => (e.Name, e.Type_)) =
          names.filterMap (fun x =>
            match fs.stat (Join d.path x) with
            | .ok m => some (x, direntTypeOf m)
            | .error _ => none) ∧
        ((∀ x ∈ names, ∃ m, fs.stat (Join d.path x) = .ok m) →
          ents.length = names.length ∧ ents.map (fun e => e.Name) = names ∧
          ents.map (fun e => e.Type_) =
            names.map (fun x =>
              if fs.stat (Join d.path x) = .ok .dir then DirentType.DT_Dir
              else DirentType.DT_File)) := by
  constructor
  · cases hl : fs.readDir d.path with
    | error e => simp [ReadDirAll_error fs s d e hl]
    | ok names => simp [ReadDirAll_ok fs s d names hl]
  · intro names hlist hvalid
    have hents := ReadDirAll_loop_dirents fs d names
      { s with subDirs := Function.update s.subDirs d.path [] } []
    have hcongr : names.filterMap (fun x =>
          match fs.stat (Join d.path x) with
          | .ok m => some (basename (Join d.path x), direntTypeOf m)
          | .error _ => none) =
        names.filterMap (fun x =>
          match fs.stat (Join d.path x) with
          | .ok m => some (x, direntTypeOf m)
          | .error _ => none) := by
      apply List.filterMap_congr
      intro x hx
      rw [basename_Join d.path x (hvalid x hx)]
    rw [hcongr] at hents
    simp only [List.map_nil, List.nil_append] at hents
    refine ⟨_, by rw [ReadDirAll_ok fs s d names hlist], hents, ?_⟩
    intro hall
    have hmap : names.filterMap (fun x =>
          match fs.stat (Join d.path x) with
          | .ok m => some (x, direntTypeOf m)
          | .error _ => none) =
        names.map (fun x => (x,
          if fs.stat (Join d.path x) = .ok .dir then DirentType.DT_Dir
          else DirentType.DT_File)) := by
      rw [← List.filterMap_eq_map]
      apply List.filterMap_congr
      intro x hx
      obtain ⟨m, hm⟩ := hall x hx
      by_cases hd : m = .dir <;> simp [hm, direntTypeOf, hd]
    rw [hmap] at hents
    refine ⟨?_, ?_, ?_⟩
    · have := congrArg List.length hents
      simpa using this
    · have := congrArg (List.map Prod.fst) hents
      simpa [List.map_map, Function.comp_def] using this
    · have := congrArg (List.map Prod.snd) hents
      simpa [List.map_map, Function.comp_def] using this

/-- C6 on the origin root: `gone`, whose stat fails, is left out, the others keep their order. -/
theorem C6_listing_completeness_and_order_witness :
    listFS.readDir rootDir.path = .ok ["a", "gone", "f.txt", "z"] ∧
    (∀ x ∈ ["a", "gone", "f.txt", "z"], validName x) ∧
    ∃ ents, (Dir.ReadDirAll listFS State.init rootDir).1 = .ok ents ∧
      ents.map (fun e => (e.Name, e.Type_)) =
        [("a", .DT_Dir), ("f.txt", .DT_File), ("z", .DT_Dir)] :=
  ⟨by decide, by decide,
    (C6_listing_completeness_and_order listFS State.init rootDir).2
      ["a", "gone", "f.txt", "z"] (by decide) (by decide) |>.imp fun _ h => ⟨h.1, h.2.1⟩⟩

/-! ## The child-directory index -/

/-- The function `readDir` returns the index as it found it. -/
theorem readDir_subDirs (fs : FileSys) (s : State) (p n : String) :
    (readDir fs s p n).2.subDirs = s.subDirs := by
  unfold readDir
  simp only
  split
  · rfl
  · split <;> rfl

/-- The method `Dir.Lookup` returns the index as it found it. -/
theorem Lookup_subDirs (fs : FileSys) (s : State) (d : Dir) (n : String) :
    (Dir.Lookup fs s d n).state.subDirs = s.subDirs := by
  unfold Dir.Lookup
  split
  · rfl
  · simp only
    split
    · exact findFile_subDirs fs s d.path n
    · split
      · rw [readDir_subDirs]
        exact findFile_subDirs fs s d.path n
      · split <;> exact findFile_subDirs fs s d.path n

theorem IndexWF_init : IndexWF State.init.subDirs :=
  fun _ _ h => absurd h (List.not_mem_nil _)

/-- Every `Dir` recorded under `d.path` by a successful listing lies directly below it. -/
theorem IndexWF_of_listing (fs : FileSys) (s : State) (d : Dir) (names : List String)
    (hlist : fs.readDir d.path = .ok names) :
    ∀ dir ∈ (Dir.ReadDirAll fs s d).2.subDirs d.path, dir.path = Join d.path dir.name := by
  obtain ⟨hidx, -⟩ := ReadDirAll_index fs s d names hlist
  intro dir hmem
  have : (dir.name, dir.path) ∈
      ((Dir.ReadDirAll fs s d).2.subDirs d.path).map (fun x => (x.name, x.path)) :=
    List.mem_map.mpr ⟨dir, hmem, rfl⟩
  rw [hidx] at this
  obtain ⟨x, _, hx⟩ := List.mem_map.mp this
  simp only [Prod.mk.injEq] at hx
  rw [← hx.2, ← hx.1]

/-- The index that `ReadDirAll` leaves is well formed when the one it found was. -/
theorem IndexWF_ReadDirAll (fs : FileSys) (s : State) (d : Dir) (h : IndexWF s.subDirs) :
    IndexWF (Dir.ReadDirAll fs s d).2.subDirs := by
  cases hl : fs.readDir d.path with
  | error e => rw [ReadDirAll_error fs s d e hl]; exact h
  | ok names =>
    obtain ⟨hidx, hframe⟩ := ReadDirAll_index fs s d names hl
    intro k dir hmem
    by_cases hk : k = d.path
    · subst hk
      have : (dir.name, dir.path) ∈
          ((Dir.ReadDirAll fs s d).2.subDirs d.path).map (fun x => (x.name, x.path)) :=
        List.mem_map.mpr ⟨dir, hmem, rfl⟩
      rw [hidx] at this
      obtain ⟨x, _, hx⟩ := List.mem_map.mp this
      simp only [Prod.mk.injEq] at hx
      rw [← hx.2, ← hx.1]
    · rw [hframe k hk] at hmem
      exact h k dir hmem

/-- In every state the process can reach, every `Dir` of the index lies directly below
the path it is recorded under. -/
theorem Reachable_IndexWF (s : State) (h : Reachable s) : IndexWF s.subDirs := by
  induction h with
  | init => exact IndexWF_init
  | afterRoot r s _ ih => exact ih
  | afterLookup fs s d name _ ih => rw [Lookup_subDirs]; exact ih
  | afterReadDirAll fs s d _ ih => exact IndexWF_ReadDirAll fs s d ih
  | afterFindFile fs s path name _ ih => rw [findFile_subDirs]; exact ih
  | afterReadDir fs s path name _ ih => rw [readDir_subDirs]; exact ih

/-- C9. After a successful `Dir.ReadDirAll d`, whatever the index held before, the index
entry of `d.path` is exactly the list, in the order of the enumeration, of one `Dir` with
name `n` and path `Join d.path n` per listed entry `n` whose stat reported a directory,
and the index entry of every other path is unchanged.  `Dir.Lookup`, `findFile`,
`readDir` and `FS.Root` never change the index. -/
theorem C9_index_rebuild_and_frame (fs : FileSys) (s : State) (d : Dir) :
    (∀ names, fs.readDir d.path = .ok names →
      ((Dir.ReadDirAll fs s d).2.subDirs d.path).map (fun x => (x.name, x.path)) =
        (names.filter (fun x => decide (fs.stat (Join d.path x) = .ok .dir))).map
          (fun x => (x, Join d.path x)) ∧
      ∀ q, q ≠ d.path → (Dir.ReadDirAll fs s d).2.subDirs q = s.subDirs q) ∧
    (∀ n, (Dir.Lookup fs s d n).state.subDirs = s.subDirs) ∧
    (∀ p n, (findFile fs s p n).state.subDirs = s.subDirs) ∧
    (∀ p n, (readDir fs s p n).2.subDirs = s.subDirs) ∧
    (∀ r : FS, (r.Root s).2.subDirs = s.subDirs) := by
  exact ⟨fun names hlist => ReadDirAll_index fs s d names hlist,
    fun n => Lookup_subDirs fs s d n, fun p n => findFile_subDirs fs s p n,
    fun p n => readDir_subDirs fs s p n, fun _ => rfl⟩

/-- C9 on the origin root, from globals whose index holds earlier records: the record `old`
under the root is gone, the record under `b` is as it was. -/
theorem C9_index_rebuild_and_frame_witness :
    listFS.readDir rootDir.path = .ok ["a", "gone", "f.txt", "z"] ∧
    ((Dir.ReadDirAll listFS staleState rootDir).2.subDirs rootDir.path).map
        (fun x => (x.name, x.path)) =
      [("a", "/workspaces/cerebrium-fuse/nfs/a"), ("z", "/workspaces/cerebrium-fuse/nfs/z")] ∧
    (Dir.ReadDirAll listFS staleState rootDir).2.subDirs "/workspaces/cerebrium-fuse/nfs/b" =
      staleState.subDirs "/workspaces/cerebrium-fuse/nfs/b" :=
  ⟨by decide,
    ((C9_index_rebuild_and_frame listFS staleState rootDir).1
      ["a", "gone", "f.txt", "z"] (by decide)).1.trans (by decide),
    ((C9_index_rebuild_and_frame listFS staleState rootDir).1
      ["a", "gone", "f.txt", "z"] (by decide)).2 _ (by decide)⟩

/-! ## Looking a name up -/

/-- C3, as stated, fails.  The directory `b` was listed while it held the sub-directory
`x`, so the index records `x`; afterwards nothing exists in either tier any more.
`Lookup` of `x` in `b` still returns the recorded `Dir`, with a nil error. -/
theorem C3_counterexample :
    emptyFS.stat (Join dirB.path "x") = .error .ENOENT ∧
    emptyFS.stat (Join cacheDir "x") = .error .ENOENT ∧
    (Dir.Lookup emptyFS (Dir.ReadDirAll shadowFS State.init dirB).2 dirB "x").val =
      (some (.dir { name := "x", path := "/workspaces/cerebrium-fuse/nfs/b/x", inode := 2 }),
        none) := by
  decide

/-- C3, amended.  For every directory node `d`, name `n` and state of the process whose
index lists no sub-directory named `n` for `d.path`: when neither `Join d.path n` exists
in the origin tier nor `Join cacheDir n` in the cache tier, `Dir.Lookup d n` returns no
node and the error `syscall.ENOENT`. -/
theorem C3_not_found_mapping (fs : FileSys) (s : State) (d : Dir) (n : String)
    (hidx : ∀ dir ∈ s.subDirs d.path, dir.name ≠ n)
    (horigin : fs.stat (Join d.path n) = .error .ENOENT)
    (hcache : fs.stat (Join cacheDir n) = .error .ENOENT) :
    (Dir.Lookup fs s d n).val = (none, some (.Errno .ENOENT)) := by
  have hfind : (s.subDirs d.path).find? (fun dir => dir.name == n) = none := by
    rw [List.find?_eq_none]
    intro dir hmem
    simpa using hidx dir hmem
  simp [Dir.Lookup, hfind, findFile, nextInod.next, os_Stat, hcache, horigin,
    errors_Is_ErrIsDir, os_IsNotExist]

/-- C3, amended, on the name `c.txt`, which neither tier holds and the index does not list. -/
theorem C3_not_found_mapping_witness :
    (∀ dir ∈ State.init.subDirs "/workspaces/cerebrium-fuse/nfs/a", dir.name ≠ "c.txt") ∧
    helloFS.stat (Join "/workspaces/cerebrium-fuse/nfs/a" "c.txt") = .error .ENOENT ∧
    helloFS.stat (Join cacheDir "c.txt") = .error .ENOENT ∧
    (Dir.Lookup helloFS State.init
        { name := "a", path := "/workspaces/cerebrium-fuse/nfs/a", inode := 2 } "c.txt").val =
      (none, some (.Errno .ENOENT)) :=
  ⟨by decide, by decide, by decide,
    C3_not_found_mapping helloFS State.init
      { name := "a", path := "/workspaces/cerebrium-fuse/nfs/a", inode := 2 } "c.txt"
      (by decide) (by decide) (by decide)⟩

/-- C4, as stated, fails.  `b/x` is a directory of the origin tier, the cache tier holds
a regular file `x`, the index is empty: `Lookup` returns a `File` node, not a `Dir`. -/
theorem C4_counterexample :
    shadowFS.stat (Join dirB.path "x") = .ok .dir ∧
    (Dir.Lookup shadowFS State.init dirB "x").val =
      (some (.file { path := "/workspaces/cerebrium-fuse/nfs/b/x",
                     cachedPath := "/workspaces/cerebrium-fuse/ssd/x", inode := 1, size := 1 }),
        none) := by
  decide

/-- C4, amended.  For every directory node `d` and name `n` such that `Join d.path n` is
a directory in the origin tier, and every content of the cache tier in which
`Join cacheDir n` is not a regular file, `Dir.Lookup d n` returns, in every state the
process can reach, a `Dir` (never a `File`) with a nil error, whose name is `n` and whose
path is `Join d.path n`.  When the name is not in the index the node is built by the
redirect and its identity is the second one allocated during the call; it is strictly
greater than the counter before the call unless the 64-bit counter wraps. -/
theorem C4_directory_lookup (fs : FileSys) (s : State) (d : Dir) (n : String)
    (hs : Reachable s)
    (hdir : fs.stat (Join d.path n) = .ok .dir)
    (hcache : fs.stat (Join cacheDir n) ≠ .ok .regular) :
    ∃ dir : Dir,
      (Dir.Lookup fs s d n).val = (some (.dir dir), none) ∧
      dir.name = n ∧ dir.path = Join d.path n ∧
      ((s.subDirs d.path).find? (fun x => x.name == n) = none →
        dir.inode = (s.count.inode + 2) % 2 ^ 64 ∧
        (s.count.inode + 2 < 2 ^ 64 → s.count.inode < dir.inode)) := by
  cases hfind : (s.subDirs d.path).find? (fun x => x.name == n) with
  | some dir =>
    have hname : dir.name = n := by simpa using List.find?_some hfind
    have hmem : dir ∈ s.subDirs d.path := List.mem_of_find?_eq_some hfind
    refine ⟨dir, by simp [Dir.Lookup, hfind], hname, ?_, fun h => by simp at h⟩
    rw [Reachable_IndexWF s hs d.path dir hmem, hname]
  | none =>
    refine ⟨{ name := n, path := Join d.path n, inode := (s.count.inode + 2) % 2 ^ 64 },
      ?_, rfl, rfl, fun _ => ⟨rfl, fun h => ?_⟩⟩
    · have hff := findFile_ErrIsDir fs s d.path n hdir hcache
      simp [Dir.Lookup, hfind, hff, errors_Is_ErrIsDir, readDir, os_Stat, hdir,
        FileInfo.IsDir, nextInod.next]
    · show s.count.inode < (s.count.inode + 2) % 2 ^ 64
      rw [Nat.mod_eq_of_lt h]
      omega

/-- C4, amended, on the directory `a` of the origin root, at process start. -/
theorem C4_directory_lookup_witness :
    Reachable State.init ∧
    helloFS.stat (Join "/workspaces/cerebrium-fuse/nfs/" "a") = .ok .dir ∧
    helloFS.stat (Join cacheDir "a") ≠ .ok .regular ∧
    ∃ dir : Dir,
      (Dir.Lookup helloFS State.init
        { name := "", path := "/workspaces/cerebrium-fuse/nfs/", inode := 1 } "a").val =
          (some (.dir dir), none) ∧
      dir.name = "a" ∧ dir.path = Join "/workspaces/cerebrium-fuse/nfs/" "a" ∧
      ((State.init.subDirs "/workspaces/cerebrium-fuse/nfs/").find? (fun x => x.name == "a")
          = none →
        dir.inode = (State.init.count.inode + 2) % 2 ^ 64 ∧
        (State.init.count.inode + 2 < 2 ^ 64 → State.init.count.inode < dir.inode)) :=
  ⟨.init, by decide, by decide,
    C4_directory_lookup helloFS State.init
      { name := "", path := "/workspaces/cerebrium-fuse/nfs/", inode := 1 } "a"
      .init (by decide) (by decide)⟩

/-- C5. After a successful `Dir.ReadDirAll d`, for every entry of the returned listing
with type `DT_Dir` and name `n`, a following `Dir.Lookup d n` returns, with a nil error, a
`Dir` that the index records for `d.path`, with name `n` and path `Join d.path n`.  It does
so whatever the two tiers hold at the time of the lookup, starts nothing, and leaves the
globals, the identity counter among them, as they were. -/
theorem C5_lookup_after_listing (fs : FileSys) (s : State) (d : Dir)
    (ents : List Dirent) (e : Dirent)
    (hvalid : ∀ names, fs.readDir d.path = .ok names → ∀ x ∈ names, validName x)
    (hok : (Dir.ReadDirAll fs s d).1 = .ok ents)
    (he : e ∈ ents) (hty : e.Type_ = .DT_Dir) :
    ∃ dir ∈ (Dir.ReadDirAll fs s d).2.subDirs d.path,
      dir.name = e.Name ∧ dir.path = Join d.path e.Name ∧
      ∀ fs2 : FileSys,
        (Dir.Lookup fs2 (Dir.ReadDirAll fs s d).2 d e.Name).val = (some (.dir dir), none) ∧
        (Dir.Lookup fs2 (Dir.ReadDirAll fs s d).2 d e.Name).spawned = none ∧
        (Dir.Lookup fs2 (Dir.ReadDirAll fs s d).2 d e.Name).state =
          (Dir.ReadDirAll fs s d).2 := by
  cases hl : fs.readDir d.path with
  | error err =>
    rw [ReadDirAll_error fs s d err hl] at hok
    simp at hok
  | ok names =>
    have hv := hvalid names hl
    obtain ⟨hidx, -⟩ := ReadDirAll_index fs s d names hl
    -- the entry comes from a listed name whose stat reported a directory
    have hents := ReadDirAll_loop_dirents fs d names
      { s with subDirs := Function.update s.subDirs d.path [] } []
    rw [ReadDirAll_ok fs s d names hl] at hok
    simp only [Except.ok.injEq] at hok
    rw [hok] at hents
    simp only [List.map_nil, List.nil_append] at hents
    have hmem : (e.Name, e.Type_) ∈ ents.map (fun e => (e.Name, e.Type_)) :=
      List.mem_map.mpr ⟨e, he, rfl⟩
    rw [hents, List.mem_filterMap] at hmem
    obtain ⟨x, hx, hcls⟩ := hmem
    have hxdir : fs.stat (Join d.path x) = .ok .dir ∧ x = e.Name := by
      cases hst : fs.stat (Join d.path x) with
      | error err => simp [hst] at hcls
      | ok m =>
        simp only [hst, Option.some.injEq, Prod.mk.injEq] at hcls
        rw [basename_Join d.path x (hv x hx)] at hcls
        refine ⟨?_, hcls.1⟩
        by_cases hm : m = .dir
        · rw [hm]
        · rw [hty] at hcls
          simp [direntTypeOf, hm] at hcls
    -- hence the index lists it, and every index entry lies below d.path
    have hin : (e.Name, Join d.path e.Name) ∈
        ((Dir.ReadDirAll fs s d).2.subDirs d.path).map (fun x => (x.name, x.path)) := by
      rw [hidx]
      refine List.mem_map.mpr ⟨x, ?_, by rw [hxdir.2]⟩
      simp [List.mem_filter, hx, hxdir.1]
    obtain ⟨dir0, hdir0, hnp⟩ := List.mem_map.mp hin
    simp only [Prod.mk.injEq] at hnp
    cases hfind : ((Dir.ReadDirAll fs s d).2.subDirs d.path).find?
        (fun x => x.name == e.Name) with
    | none =>
      rw [List.find?_eq_none] at hfind
      exact absurd (by simpa using hnp.1) (hfind dir0 hdir0)
    | some dir =>
      have hname : dir.name = e.Name := by simpa using List.find?_some hfind
      have hdmem : dir ∈ (Dir.ReadDirAll fs s d).2.subDirs d.path :=
        List.mem_of_find?_eq_some hfind
      have hpath : dir.path = Join d.path dir.name :=
        IndexWF_of_listing fs s d names hl dir hdmem
      refine ⟨dir, hdmem, hname, by rw [hpath, hname], fun fs2 => ⟨?_, ?_, ?_⟩⟩ <;>
        simp [Dir.Lookup, hfind]

/-- C5 on the listing of the origin root and its entry `z`. -/
theorem C5_lookup_after_listing_witness :
    (∀ names, listFS.readDir rootDir.path = .ok names → ∀ x ∈ names, validName x) ∧
    (Dir.ReadDirAll listFS State.init rootDir).1 =
      .ok [{ Inode := 1, Name := "a", Type_ := .DT_Dir },
           { Inode := 3, Name := "f.txt", Type_ := .DT_File },
           { Inode := 4, Name := "z", Type_ := .DT_Dir }] ∧
    ∃ dir ∈ (Dir.ReadDirAll listFS State.init rootDir).2.subDirs rootDir.path,
      dir.name = "z" ∧ dir.path = Join rootDir.path "z" ∧
      ∀ fs2 : FileSys,
        (Dir.Lookup fs2 (Dir.ReadDirAll listFS State.init rootDir).2 rootDir "z").val =
          (some (.dir dir), none) ∧
        (Dir.Lookup fs2 (Dir.ReadDirAll listFS State.init rootDir).2 rootDir "z").spawned =
          none ∧
        (Dir.Lookup fs2 (Dir.ReadDirAll listFS State.init rootDir).2 rootDir "z").state =
          (Dir.ReadDirAll listFS State.init rootDir).2 :=
  have hvalid : ∀ names, listFS.readDir rootDir.path = .ok names → ∀ x ∈ names, validName x := by
    intro names h
    have h' : listFS.readDir rootDir.path = .ok ["a", "gone", "f.txt", "z"] := by decide
    rw [h'] at h
    cases h
    decide
  ⟨hvalid, by decide,
    C5_lookup_after_listing listFS State.init rootDir
      [{ Inode := 1, Name := "a", Type_ := .DT_Dir },
       { Inode := 3, Name := "f.txt", Type_ := .DT_File },
       { Inode := 4, Name := "z", Type_ := .DT_Dir }]
      { Inode := 4, Name := "z", Type_ := .DT_Dir }
      hvalid (by decide) (by decide) (by decide)⟩

end CerebriumFuse
